/-
Verification of `kale.predict.losses` and the example config modules of
the pykale repository.

Tensors with exactly rational entries are embedded over `ℚ` (so that the
purely algebraic functions `hsic`, `compute_mmd_loss` stay executable);
the functions whose source uses transcendental primitives (`exp`, `log`,
`sqrt`) are embedded over `ℝ`.  A 2-D tensor of shape (r, c) is a function
`ℕ → ℕ → _` together with its explicit shape, mirroring the dynamically
shaped torch tensors of the source.
-/
import Mathlib

namespace PyKale

/-! ### ℚ-valued tensor primitives (torch operations used by the source) -/

/-- Embedding of `torch.mm` on square `n × n` matrices stored as index functions. -/
def mmN (n : ℕ) (A B : ℕ → ℕ → ℚ) : ℕ → ℕ → ℚ :=
  fun i j => ∑ k ∈ Finset.range n, A i k * B k j

/-- Embedding of `torch.trace` of an `n × n` matrix. -/
def traceN (n : ℕ) (A : ℕ → ℕ → ℚ) : ℚ :=
  ∑ i ∈ Finset.range n, A i i

/-- Embedding of `torch.eye(n) - torch.ones((n, n)) / n`, the centering matrix
built in the source of `hsic` (`ctr_mat`). -/
def ctr_mat (n : ℕ) : ℕ → ℕ → ℚ :=
  fun i j => (if i = j then 1 else 0) - 1 / n

/-! ### `hsic` (src/kale/predict/losses.py)

`hsic(kx, ky, device)` first reads `n = kx.shape[0]`, raises `ValueError`
when `ky.shape[0] != n`, and otherwise returns
`trace(mm(mm(mm(kx, ctr_mat), ky), ctr_mat)) / n ** 2`.
The `device` argument only places the centering matrix and does not affect
the value, so it is dropped from the embedding. -/
def hsic (nx ny : ℕ) (kx ky : ℕ → ℕ → ℚ) : Except String ℚ :=
  if ny ≠ nx then
    Except.error "kx and ky are expected to have the same sample sizes."
  else
    Except.ok (traceN nx (mmN nx (mmN nx (mmN nx kx (ctr_mat nx)) ky) (ctr_mat nx)) / (nx ^ 2))

/-- The centering matrix `H = I_n - (1/n) J_n` as described in the spec,
over Mathlib's matrix type. -/
def centeringMatrix (n : ℕ) : Matrix (Fin n) (Fin n) ℚ :=
  1 - (n : ℚ)⁻¹ • Matrix.of (fun _ _ => (1 : ℚ))

/-- The biased HSIC estimator as the spec words it:
`trace(kx ⬝ H ⬝ ky ⬝ H) / n²`. -/
def hsicSpec {n : ℕ} (kx ky : Matrix (Fin n) (Fin n) ℚ) : ℚ :=
  (kx * centeringMatrix n * ky * centeringMatrix n).trace / (n ^ 2)

/-! ### `compute_mmd_loss` (src/kale/predict/losses.py) -/

/-- Embedding of `compute_mmd_loss(kernel_values, batch_size)`: the loop
`for i in range(batch_size)` accumulating
`K[s1,s2] + K[t1,t2] - K[s1,t2] - K[s2,t1]` with `s1 = i`,
`s2 = (i+1) % batch_size`, `t1 = s1 + batch_size`, `t2 = s2 + batch_size`,
then divided by `float(batch_size)`. -/
def compute_mmd_loss (kernel_values : ℕ → ℕ → ℚ) (batch_size : ℕ) : ℚ :=
  (∑ i ∈ Finset.range batch_size,
      (kernel_values i ((i + 1) % batch_size)
        + kernel_values (i + batch_size) ((i + 1) % batch_size + batch_size)
        - kernel_values i ((i + 1) % batch_size + batch_size)
        - kernel_values ((i + 1) % batch_size) (i + batch_size))) / (batch_size : ℚ)


/-! ### Real-valued embeddings

The remaining loss functions use `exp`, `log` and `sqrt`, so they are
embedded over `ℝ`.  A batch of shape (b, c) is an index function
`ℕ → ℕ → ℝ` together with the explicit sizes. -/

/-- Scan used by `class_output.max(1)`: fold over the column indices keeping
the index of the first maximal value (torch returns the index of the first
maximal value of each reduced row). -/
noncomputable def argmaxAux (v : ℕ → ℝ) : Option ℕ → List ℕ → Option ℕ
  | acc, [] => acc
  | none, j :: rest => argmaxAux v (some j) rest
  | some i, j :: rest => argmaxAux v (some (if v i < v j then j else i)) rest

/-- Index of the first maximal entry among columns `0, …, c-1` of a row,
as `tensor.max(dim)` computes it; `none` only when `c = 0`. -/
noncomputable def torchArgmax (v : ℕ → ℝ) (c : ℕ) : Option ℕ :=
  argmaxAux v none (List.range c)

/-- Embedding of `F.log_softmax(x, dim=1)` on a (·, c) batch:
`log_softmax(x)[i][j] = x[i][j] - log (Σ_k exp x[i][k])`. -/
noncomputable def log_softmax (linear_output : ℕ → ℕ → ℝ) (c : ℕ) : ℕ → ℕ → ℝ :=
  fun i j => linear_output i j - Real.log (∑ k ∈ Finset.range c, Real.exp (linear_output i k))

/-- Embedding of `F.softmax(x, dim=1)` on a (·, c) batch. -/
noncomputable def softmax (linear_output : ℕ → ℕ → ℝ) (c : ℕ) : ℕ → ℕ → ℝ :=
  fun i j => Real.exp (linear_output i j) / ∑ k ∈ Finset.range c, Real.exp (linear_output i k)

/-- Embedding of `cross_entropy_logits(linear_output, label, weights)` on a
(b, c) batch: `class_output = log_softmax(linear_output)`, `y_hat` its row
argmax, `correct[i] ⇔ y_hat[i] = label[i]`; with `weights = None` the loss is
`NLLLoss()(class_output, label)` (mean of the per-sample negative true-class
log-probability), otherwise `sum(weights * losses) / sum(weights)` with the
per-sample `NLLLoss(reduction="none")` values. -/
noncomputable def cross_entropy_logits (b c : ℕ) (linear_output : ℕ → ℕ → ℝ)
    (label : ℕ → ℕ) (weights : Option (ℕ → ℝ)) : ℝ × (ℕ → Prop) :=
  let class_output := log_softmax linear_output c
  let y_hat := fun i => torchArgmax (class_output i) c
  let correct := fun i => y_hat i = some (label i)
  let losses := fun i => -(class_output i (label i))
  let loss := match weights with
    | none => (∑ i ∈ Finset.range b, losses i) / b
    | some w => (∑ i ∈ Finset.range b, w i * losses i) / ∑ i ∈ Finset.range b, w i
  (loss, correct)

/-- Embedding of `entropy_logits(linear_output)` on a (·, c) batch:
`p = softmax(x, dim=1)` and per row `-Σ_j p[i][j] * log (p[i][j] + 1e-5)`. -/
noncomputable def entropy_logits (linear_output : ℕ → ℕ → ℝ) (c : ℕ) : ℕ → ℝ :=
  fun i => -∑ j ∈ Finset.range c,
    softmax linear_output c i j * Real.log (softmax linear_output c i j + 1 / 100000)

/-- Embedding of `entropy_logits_loss(linear_output)` on a (b, c) batch:
`torch.mean(entropy_logits(linear_output))`. -/
noncomputable def entropy_logits_loss (b c : ℕ) (linear_output : ℕ → ℕ → ℝ) : ℝ :=
  (∑ i ∈ Finset.range b, entropy_logits linear_output c i) / b

/-! ### `gradient_penalty` (src/kale/predict/losses.py)

The critic enters the computation only through the autograd gradient of its
scalar per-row output, so the embedding takes that per-row gradient function
`gradFn` directly.  `torch.rand(h_s.size(0), 1)` draws one `alpha` per sample
and `expand` copies it across the feature dimension; the draw is made an
explicit argument here, and the hidden global generator is modelled below by
`TorchRNG` / `torch_rand`. -/

/-- Value of `gradient_penalty(critic, h_s, h_t)` on (n, d) batches once the
per-sample draw `alpha` of `torch.rand` is fixed: the function builds
`interpolates = h_s + alpha * (h_t - h_s)`, concatenates
`(interpolates, h_s, h_t)` along dim 0, takes the per-row gradient 2-norm of
the critic, and returns `((gradient_norm - 1) ** 2).mean()` over all `3 * n`
concatenated rows. -/
noncomputable def gradient_penalty (n d : ℕ) (gradFn : (ℕ → ℝ) → (ℕ → ℝ))
    (h_s h_t : ℕ → ℕ → ℝ) (alpha : ℕ → ℝ) : ℝ :=
  let interpolates := fun k j => h_s k j + alpha k * (h_t k j - h_s k j)
  let rows := fun k => if k < n then interpolates k
    else if k < 2 * n then h_s (k - n)
    else h_t (k - 2 * n)
  let gradient_norm := fun k => Real.sqrt (∑ j ∈ Finset.range d, gradFn (rows k) j ^ 2)
  (∑ k ∈ Finset.range (3 * n), (gradient_norm k - 1) ^ 2) / (3 * n)

/-- State of the hidden global torch random generator: a pre-determined
stream of uniform draws together with the current position. -/
structure TorchRNG where
  stream : ℕ → ℝ
  pos : ℕ

/-- Embedding of `torch.rand(n, 1)`: returns the next `n` draws of the hidden
global generator and advances its position. -/
def torch_rand (n : ℕ) (g : TorchRNG) : (ℕ → ℝ) × TorchRNG :=
  (fun i => g.stream (g.pos + i), ⟨g.stream, g.pos + n⟩)

/-- The call `gradient_penalty(critic, h_s, h_t)` as the module exposes it:
the per-sample `alpha` is not an argument but is drawn from the hidden global
generator, which the call advances. -/
noncomputable def gradient_penalty_run (n d : ℕ) (gradFn : (ℕ → ℝ) → (ℕ → ℝ))
    (h_s h_t : ℕ → ℕ → ℝ) (g : TorchRNG) : ℝ × TorchRNG :=
  let r := torch_rand n g
  (gradient_penalty n d gradFn h_s h_t r.1, r.2)

/-- Penalty that the spec sentence describes: the mean over the `n`
interpolated samples alone of `(‖∇ critic‖₂ - 1)²`. -/
noncomputable def gradientPenaltySpec (n d : ℕ) (gradFn : (ℕ → ℝ) → (ℕ → ℝ))
    (h_s h_t : ℕ → ℕ → ℝ) (alpha : ℕ → ℝ) : ℝ :=
  (∑ k ∈ Finset.range n,
      (Real.sqrt (∑ j ∈ Finset.range d,
          gradFn (fun j => h_s k j + alpha k * (h_t k j - h_s k j)) j ^ 2) - 1) ^ 2) / n

/-! ### `gaussian_kernel` and `euclidean` (src/kale/predict/losses.py) -/

/-- Embedding of `gaussian_kernel(source, target, kernel_mul, kernel_num,
fix_sigma)` with `source` of shape (m, d) and `target` of shape (p, d).
`fix_sigma` is an optional Python scalar, kept as `Option ℚ` so that the
source line `if fix_sigma:` (Python truthiness: `None` and `0` are both
falsy) can be mirrored exactly. -/
noncomputable def gaussian_kernel (m p d : ℕ) (source target : ℕ → ℕ → ℝ)
    (kernel_mul : ℝ) (kernel_num : ℕ) (fix_sigma : Option ℚ) : ℕ → ℕ → ℝ :=
  let n_samples := m + p
  let total := fun i j => if i < m then source i j else target (i - m) j
  let L2_distance := fun i j =>
    ∑ k ∈ Finset.range d, (total j k - total i k) ^ 2
  let data_bandwidth : ℝ :=
    (∑ i ∈ Finset.range n_samples, ∑ j ∈ Finset.range n_samples, L2_distance i j)
      / ((n_samples ^ 2 - n_samples : ℕ) : ℝ)
  let bandwidth0 : ℝ := match fix_sigma with
    | some s => if s ≠ 0 then (s : ℝ) else data_bandwidth
    | none => data_bandwidth
  let bandwidth := bandwidth0 / kernel_mul ^ (kernel_num / 2)
  fun i j => ∑ t ∈ Finset.range kernel_num,
    Real.exp (-L2_distance i j / (bandwidth * kernel_mul ^ t))

/-- Embedding of `euclidean(x1, x2)` on flat tensors of `d` entries:
`((x1 - x2) ** 2).sum().sqrt()`. -/
noncomputable def euclidean (d : ℕ) (x1 x2 : ℕ → ℝ) : ℝ :=
  Real.sqrt (∑ k ∈ Finset.range d, (x1 k - x2 k) ^ 2)


/-! ### Example config modules (src/examples/*/config.py)

Each module builds a module-level yacs `CfgNode` tree `_C` of default values
and exposes `get_cfg_defaults()` returning `_C.clone()`.  A `CfgNode` is
embedded as a tree of string-keyed entries; `clone` (yacs: a deep copy of
the node) is the structural rebuild of the tree. -/

/-- Scalar values stored at the leaves of the example config trees. -/
inductive CfgValue where
  | str : String → CfgValue
  | int : ℤ → CfgValue
  | float : ℚ → CfgValue
  | bool : Bool → CfgValue
  | intList : List ℤ → CfgValue
  deriving DecidableEq

mutual
/-- A yacs `CfgNode` tree: a leaf value or a node of keyed children. -/
inductive CfgTree where
  | leaf : CfgValue → CfgTree
  | node : CfgEntries → CfgTree
/-- The ordered entries of a `CfgNode`. -/
inductive CfgEntries where
  | nil : CfgEntries
  | cons : String → CfgTree → CfgEntries → CfgEntries
end

/-- Builds the entries of a node from a key/subtree list. -/
def CfgEntries.ofList : List (String × CfgTree) → CfgEntries
  | [] => .nil
  | (k, t) :: rest => .cons k t (CfgEntries.ofList rest)

mutual
/-- Embedding of `CfgNode.clone()` (yacs: `copy.deepcopy(self)`): rebuilds
the whole tree, so the result shares no node with the original. -/
def CfgTree.clone : CfgTree → CfgTree
  | .leaf v => .leaf v
  | .node es => .node es.cloneAll
/-- Deep copy of every entry of a node. -/
def CfgEntries.cloneAll : CfgEntries → CfgEntries
  | .nil => .nil
  | .cons k t rest => .cons k t.clone rest.cloneAll
end

/-- State of a config module: the current value of its module-level `_C`. -/
structure ModuleState where
  modC : CfgTree

/-- Embedding of `get_cfg_defaults()`: returns `_C.clone()` and leaves the
module state untouched. -/
def get_cfg_defaults (s : ModuleState) : CfgTree × ModuleState :=
  (s.modC.clone, s)

/-- Applies a caller-side mutation to the tree returned by
`get_cfg_defaults`; the module state is unaffected because the returned tree
is a deep copy sharing nothing with `_C`. -/
def mutate_returned (m : CfgTree → CfgTree) (r : CfgTree × ModuleState) :
    CfgTree × ModuleState :=
  (m r.1, r.2)

/-- Default tree of src/examples/avmnist_multimodal/config.py. -/
def avmnistDefaults : CfgTree := .node (.ofList [
  ("DATASET", .node (.ofList [
    ("ROOT", .leaf (.str "avmnist")),
    ("NAME", .leaf (.str "data.zip")),
    ("GDRIVE_ID", .leaf (.str "1N5k-LvLwLbPBgn3GdVg6fXMBIR6pYrKb")),
    ("BASE_DIR", .leaf (.str "avmnist")),
    ("FILE_FORAMT", .leaf (.str "zip")),
    ("BATCH_SIZE", .leaf (.int 40)),
    ("SHUFFLE", .leaf (.bool true)),
    ("FLATTEN_AUDIO", .leaf (.bool true)),
    ("FLATTEN_IMAGE", .leaf (.bool true)),
    ("UNSQUEEZE_CHANNEL", .leaf (.bool false)),
    ("NORMALIZE_IMAGE", .leaf (.bool false)),
    ("NORMALIZE_AUDIO", .leaf (.bool false))])),
  ("SOLVER", .node (.ofList [
    ("SEED", .leaf (.int 2020)),
    ("BASE_LR", .leaf (.float (1 / 100))),
    ("WEIGHT_DECAY", .leaf (.float (1 / 10000))),
    ("MAX_EPOCHS", .leaf (.int 1)),
    ("IS_PACKED", .leaf (.bool false)),
    ("EARLY_STOP", .leaf (.bool true)),
    ("CLIP_VAL", .leaf (.int 8))])),
  ("MODEL", .node (.ofList [
    ("LENET_IN_CHANNELS", .leaf (.int 1)),
    ("LENET_ADD_LAYERS_IMG", .leaf (.int 3)),
    ("LENET_ADD_LAYERS_AUD", .leaf (.int 5)),
    ("CHANNELS", .leaf (.int 6)),
    ("MLP_IN_DIM", .leaf (.int 240)),
    ("MLP_LOW_RANK_IN_DIM", .leaf (.int 120)),
    ("MLP_HIDDEN_DIM", .leaf (.int 100)),
    ("OUT_DIM", .leaf (.int 2)),
    ("FUSION", .leaf (.str "late")),
    ("MULTIPLICATIVE_FUSION_IN_DIM", .leaf (.intList [48, 192])),
    ("MULTIPLICATIVE_FUSION_OUT_DIM", .leaf (.int 240)),
    ("MULTIPLICATIVE_OUTPUT", .leaf (.str "matrix")),
    ("LOW_RANK_TENSOR_IN_DIM", .leaf (.intList [48, 192])),
    ("LOW_RANK_TENSOR_OUT_DIM", .leaf (.int 120)),
    ("LOW_RANK_TENSOR_RANK", .leaf (.int 40))])),
  ("OUTPUT_DIR", .leaf (.str "./outputs"))])

/-- Default tree of src/examples/cmri_mpca/config.py. -/
def cmriDefaults : CfgTree := .node (.ofList [
  ("DATASET", .node (.ofList [
    ("SOURCE", .leaf (.str
      "https://github.com/pykale/data/raw/main/images/ShefPAH-179/SA_64x64_v2.0.zip")),
    ("ROOT", .leaf (.str "../data")),
    ("IMG_DIR", .leaf (.str "DICOM")),
    ("BASE_DIR", .leaf (.str "SA_64x64_v2.0")),
    ("FILE_FORAMT", .leaf (.str "zip")),
    ("LANDMARK_FILE", .leaf (.str "landmarks.csv")),
    ("MASK_DIR", .leaf (.str "Mask"))])),
  ("PROC", .node (.ofList [
    ("SCALE", .leaf (.int 2))])),
  ("IM_KWARGS", .node (.ofList [
    ("cmap", .leaf (.str "gray"))])),
  ("MARKER_KWARGS", .node (.ofList [
    ("marker", .leaf (.str "+")),
    ("color", .leaf (.str "r")),
    ("s", .leaf (.int 100)),
    ("linewidths", .leaf (.float (3 / 2))),
    ("edgecolors", .leaf (.str "face"))])),
  ("WEIGHT_KWARGS", .node (.ofList [
    ("markersize", .leaf (.int 6)),
    ("alpha", .leaf (.float (7 / 10)))])),
  ("PLT_KWARGS", .node (.ofList [
    ("n_cols", .leaf (.int 10))])),
  ("PIPELINE", .node (.ofList [
    ("CLASSIFIER", .leaf (.str "linear_svc"))])),
  ("OUTPUT", .node (.ofList [
    ("ROOT", .leaf (.str "./outputs")),
    ("SAVE_FIG", .leaf (.bool true))])),
  ("SAVE_FIG_KWARGS", .node (.ofList [
    ("format", .leaf (.str "pdf")),
    ("bbox_inches", .leaf (.str "tight"))]))])

/-- Default tree of src/examples/multisource_adapt/config.py
(TB_DIR is `os.path.join("lightning_logs", "Tgt" + _C.DATASET.TARGET)`). -/
def multisourceDefaults : CfgTree := .node (.ofList [
  ("DATASET", .node (.ofList [
    ("ROOT", .leaf (.str "../data")),
    ("NAME", .leaf (.str "digits")),
    ("TARGET", .leaf (.str "MNIST")),
    ("NUM_CLASSES", .leaf (.int 10)),
    ("NUM_REPEAT", .leaf (.int 10)),
    ("NUM_CHANNELS", .leaf (.int 3)),
    ("DIMENSION", .leaf (.int 784)),
    ("WEIGHT_TYPE", .leaf (.str "natural")),
    ("SIZE_TYPE", .leaf (.str "source"))])),
  ("SOLVER", .node (.ofList [
    ("SEED", .leaf (.int 2020)),
    ("BASE_LR", .leaf (.float (1 / 1000))),
    ("MOMENTUM", .leaf (.float (9 / 10))),
    ("WEIGHT_DECAY", .leaf (.float (1 / 2000))),
    ("NESTEROV", .leaf (.bool true)),
    ("TYPE", .leaf (.str "SGD")),
    ("MAX_EPOCHS", .leaf (.int 120)),
    ("MIN_EPOCHS", .leaf (.int 20)),
    ("TRAIN_BATCH_SIZE", .leaf (.int 100)),
    ("TEST_BATCH_SIZE", .leaf (.int 100)),
    ("AD_LAMBDA", .leaf (.bool true)),
    ("AD_LR", .leaf (.bool true)),
    ("INIT_LAMBDA", .leaf (.int 1))])),
  ("DAN", .node (.ofList [
    ("METHOD", .leaf (.str "M3SDA")),
    ("USERANDOM", .leaf (.bool false)),
    ("RANDOM_DIM", .leaf (.int 1024))])),
  ("OUTPUT", .node (.ofList [
    ("ROOT", .leaf (.str "./outputs")),
    ("VERBOSE", .leaf (.bool false)),
    ("PB_FRESH", .leaf (.int 0)),
    ("TB_DIR", .leaf (.str "lightning_logs/TgtMNIST"))]))])

/-- Freshness property of one config module with default tree `t`: both the
first call and a call made after an arbitrary mutation of the first returned
tree yield exactly the defaults, and the module state never changes. -/
def FreshDefaults (t : CfgTree) : Prop :=
  ∀ m : CfgTree → CfgTree,
    (get_cfg_defaults ⟨t⟩).1 = t ∧
    (get_cfg_defaults (mutate_returned m (get_cfg_defaults ⟨t⟩)).2).1 = t ∧
    (mutate_returned m (get_cfg_defaults ⟨t⟩)).2 = ⟨t⟩


/-- View of an index-function matrix as a Mathlib matrix. -/
def toMatrix (n : ℕ) (A : ℕ → ℕ → ℚ) : Matrix (Fin n) (Fin n) ℚ :=
  Matrix.of fun i j => A i j

/-- Concrete kernel matrix used by the C4 witness. -/
def wK : ℕ → ℕ → ℚ := fun i j => (i : ℚ) * 3 + j

/-- Per-row penalty term `(‖∇ critic‖₂ - 1)²` used to state what
`gradient_penalty` averages. -/
noncomputable def gradNormPenalty (d : ℕ) (gradFn : (ℕ → ℝ) → (ℕ → ℝ))
    (r : ℕ → ℝ) : ℝ :=
  (Real.sqrt (∑ j ∈ Finset.range d, gradFn r j ^ 2) - 1) ^ 2

/-- Constant-zero logits batch used by the C7 witness. -/
def zeroLogits : ℕ → ℕ → ℝ := fun _ _ => 0

/-- Constant-zero labels used by the C7 witness. -/
def zeroLabel : ℕ → ℕ := fun _ => 0

/-- Constant-one weights used by the C7 witness. -/
def oneWeights : ℕ → ℝ := fun _ => 1

/-- Gradient function of the concrete critic `x ↦ x₀²` (its gradient at a row
`r` is `2 r₀`), used for the C1 and C5 counterexamples. -/
def cxGrad : (ℕ → ℝ) → ℕ → ℝ := fun r _ => 2 * r 0

/-- Concrete source batch (one sample, one feature, value 0). -/
def cxHs : ℕ → ℕ → ℝ := fun _ _ => 0

/-- Concrete target batch (one sample, one feature, value 2). -/
def cxHt : ℕ → ℕ → ℝ := fun _ _ => 2

/-- Concrete per-sample draw 1/2. -/
noncomputable def cxAlphaHalf : ℕ → ℝ := fun _ => 1 / 2

/-- Concrete per-sample draw 1. -/
def cxAlphaOne : ℕ → ℝ := fun _ => 1

/-- Hidden generator state whose next draw is 1/2. -/
noncomputable def cxRngHalf : TorchRNG := ⟨fun _ => 1 / 2, 0⟩

/-- Hidden generator state whose next draw is 1. -/
def cxRngOne : TorchRNG := ⟨fun _ => 1, 0⟩

/-! ## Theorems -/

/-! ### Helper lemmas -/

mutual
/-- A deep copy of a config tree is equal (as a value) to the original. -/
theorem CfgTree.clone_eq : (t : CfgTree) → t.clone = t
  | .leaf v => rfl
  | .node es => by rw [CfgTree.clone, CfgEntries.cloneAll_eq es]
/-- A deep copy of config entries is equal (as a value) to the original. -/
theorem CfgEntries.cloneAll_eq : (es : CfgEntries) → es.cloneAll = es
  | .nil => rfl
  | .cons k t rest => by
      rw [CfgEntries.cloneAll, CfgTree.clone_eq t, CfgEntries.cloneAll_eq rest]
end

theorem toMatrix_mmN (n : ℕ) (A B : ℕ → ℕ → ℚ) :
    toMatrix n (mmN n A B) = toMatrix n A * toMatrix n B := by
  ext i j
  rw [Matrix.mul_apply]
  simp only [toMatrix, mmN, Matrix.of_apply]
  rw [Finset.sum_range (fun k => A i.val k * B k j.val)]

theorem traceN_toMatrix (n : ℕ) (A : ℕ → ℕ → ℚ) :
    traceN n A = (toMatrix n A).trace := by
  simp only [traceN, Matrix.trace, Matrix.diag, toMatrix, Matrix.of_apply]
  rw [Finset.sum_range (fun i => A i i)]

theorem toMatrix_ctr_mat (n : ℕ) : toMatrix n (ctr_mat n) = centeringMatrix n := by
  ext i j
  simp only [toMatrix, ctr_mat, centeringMatrix, Matrix.of_apply, Matrix.sub_apply,
    Matrix.smul_apply, Matrix.one_apply, smul_eq_mul, mul_one, one_div]
  rcases eq_or_ne i j with h | h
  · simp [h]
  · have hv : (i : ℕ) ≠ (j : ℕ) := fun hv => h (Fin.val_injective hv)
    simp [h, hv]

/-- Value of `hsic` on two kernel matrices of the same size. -/
theorem hsic_ok (n : ℕ) (kx ky : ℕ → ℕ → ℚ) :
    hsic n n kx ky = Except.ok (hsicSpec (toMatrix n kx) (toMatrix n ky)) := by
  simp only [hsic, ne_eq, not_true_eq_false, if_false, hsicSpec,
    traceN_toMatrix, toMatrix_mmN, toMatrix_ctr_mat, reduceIte]

/-! ### C6 -/

/-- C6: every call to `get_cfg_defaults` of each of the three example config
modules returns a fresh clone of the module-level default tree: the returned
tree equals the defaults, mutating the returned tree does not change the
module state, and a later call again returns the defaults. -/
theorem get_cfg_defaults_fresh :
    FreshDefaults avmnistDefaults ∧ FreshDefaults cmriDefaults ∧
      FreshDefaults multisourceDefaults := by
  refine ⟨?_, ?_, ?_⟩ <;>
    exact fun m => ⟨CfgTree.clone_eq _, CfgTree.clone_eq _, rfl⟩

/-! ### C2 -/

/-- C2: `hsic(kx, ky, device)` raises `ValueError` exactly when the first
dimensions of the two kernel matrices differ, and returns normally on every
pair of equally sized square kernel matrices.  (Every other loss function of
the module is embedded as a total function: their sources are straight-line
tensor algebra with no raise statement.) -/
theorem hsic_error_iff (nx ny : ℕ) (kx ky : ℕ → ℕ → ℚ) :
    ((∃ e, hsic nx ny kx ky = Except.error e) ↔ nx ≠ ny) ∧
      ((∃ q, hsic nx ny kx ky = Except.ok q) ↔ nx = ny) := by
  rcases eq_or_ne ny nx with h | h
  · subst h
    simp [hsic]
  · constructor
    · simp only [hsic, if_pos h]
      exact ⟨fun _ => (Ne.symm h), fun _ => ⟨_, rfl⟩⟩
    · simp only [hsic, if_pos h]
      exact ⟨fun ⟨q, hq⟩ => absurd hq (by simp), fun hq => absurd hq.symm h⟩

/-! ### C3 -/

/-- C3: on equally sized kernel matrices, `hsic` returns the biased HSIC
estimator `trace(kx · H · ky · H) / n²` with `H = I - (1/n) J` the centering
matrix. -/
theorem hsic_eq_biased_estimator (n : ℕ) (kx ky : ℕ → ℕ → ℚ) :
    hsic n n kx ky = Except.ok
      ((toMatrix n kx * centeringMatrix n * toMatrix n ky * centeringMatrix n).trace
        / (n ^ 2)) :=
  hsic_ok n kx ky

/-! ### C9 -/

/-- C9: `hsic` is symmetric in its two kernel arguments, by cyclicity of the
trace. -/
theorem hsic_symm (n : ℕ) (kx ky : ℕ → ℕ → ℚ) :
    hsic n n kx ky = hsic n n ky kx := by
  rw [hsic_ok, hsic_ok]
  unfold hsicSpec
  congr 1
  rw [mul_assoc (toMatrix n kx * centeringMatrix n),
    Matrix.trace_mul_comm (toMatrix n kx * centeringMatrix n),
    mul_assoc (toMatrix n ky * centeringMatrix n)]


/-! ### C4 -/

/-- C4: for every kernel matrix and `batch_size ≥ 1`, `compute_mmd_loss`
equals `(1/b) · Σ_{i<b} (K[i,j] + K[i+b,j+b] - K[i,j+b] - K[j,i+b])` with
`j = (i+1) mod b`, and it reads only entries whose row and column index are
below `2b`. -/
theorem compute_mmd_loss_spec (kernel_values kv : ℕ → ℕ → ℚ) (batch_size : ℕ)
    (hb : 1 ≤ batch_size) :
    compute_mmd_loss kernel_values batch_size =
      (1 / batch_size) * ∑ i ∈ Finset.range batch_size,
        (kernel_values i ((i + 1) % batch_size)
          + kernel_values (i + batch_size) ((i + 1) % batch_size + batch_size)
          - kernel_values i ((i + 1) % batch_size + batch_size)
          - kernel_values ((i + 1) % batch_size) (i + batch_size)) ∧
    ((∀ r c, r < 2 * batch_size → c < 2 * batch_size → kernel_values r c = kv r c) →
      compute_mmd_loss kernel_values batch_size = compute_mmd_loss kv batch_size) := by
  constructor
  · rw [compute_mmd_loss, mul_comm, mul_one_div]
  · intro hagree
    unfold compute_mmd_loss
    congr 1
    refine Finset.sum_congr rfl fun i hi => ?_
    have hib : i < batch_size := Finset.mem_range.mp hi
    have hjb : (i + 1) % batch_size < batch_size := Nat.mod_lt _ (by omega)
    rw [hagree i ((i + 1) % batch_size) (by omega) (by omega),
      hagree (i + batch_size) ((i + 1) % batch_size + batch_size) (by omega) (by omega),
      hagree i ((i + 1) % batch_size + batch_size) (by omega) (by omega),
      hagree ((i + 1) % batch_size) (i + batch_size) (by omega) (by omega)]

/-- Witness for C4 at `batch_size = 1` and `K[i][j] = 3 i + j`. -/
theorem compute_mmd_loss_spec_witness :
    1 ≤ 1 ∧
    (compute_mmd_loss wK 1 =
      (1 / 1) * ∑ i ∈ Finset.range 1,
        (wK i ((i + 1) % 1) + wK (i + 1) ((i + 1) % 1 + 1)
          - wK i ((i + 1) % 1 + 1) - wK ((i + 1) % 1) (i + 1)) ∧
    ((∀ r c, r < 2 * 1 → c < 2 * 1 → wK r c = wK r c) →
      compute_mmd_loss wK 1 = compute_mmd_loss wK 1)) :=
  ⟨le_rfl, compute_mmd_loss_spec wK wK 1 le_rfl⟩

/-! ### C10 -/

/-- C10: `gaussian_kernel` treats `fix_sigma = 0` exactly like
`fix_sigma = None`, because the source tests the bandwidth argument with
Python truthiness (`if fix_sigma:`): an explicit zero bandwidth is silently
replaced by the data-driven bandwidth. -/
theorem gaussian_kernel_fix_sigma_zero (m p d : ℕ) (source target : ℕ → ℕ → ℝ)
    (kernel_mul : ℝ) (kernel_num : ℕ) :
    gaussian_kernel m p d source target kernel_mul kernel_num (some 0) =
      gaussian_kernel m p d source target kernel_mul kernel_num none := by
  unfold gaussian_kernel
  norm_num

/-! ### C8 -/

/-- C8: `entropy_logits_loss` is the arithmetic mean over batch rows of
`entropy_logits`, whose row value is `-Σ_j p_ij · log (p_ij + 1e-5)` with
`p = softmax` along dim 1, written out through `exp`. -/
theorem entropy_logits_loss_is_mean (b c : ℕ) (linear_output : ℕ → ℕ → ℝ) :
    entropy_logits_loss b c linear_output =
      (∑ i ∈ Finset.range b, entropy_logits linear_output c i) / b ∧
    ∀ i, entropy_logits linear_output c i =
      -∑ j ∈ Finset.range c,
        (Real.exp (linear_output i j) / ∑ k ∈ Finset.range c, Real.exp (linear_output i k)) *
          Real.log
            (Real.exp (linear_output i j) /
              (∑ k ∈ Finset.range c, Real.exp (linear_output i k)) + 1 / 100000) :=
  ⟨rfl, fun _ => rfl⟩


/-! ### C7 -/

/-- Subtracting the same constant from every entry does not change the
first-maximal scan. -/
theorem argmaxAux_shift (v : ℕ → ℝ) (t : ℝ) :
    ∀ (l : List ℕ) (acc : Option ℕ),
      argmaxAux (fun j => v j - t) acc l = argmaxAux v acc l
  | [], none => rfl
  | [], some _ => rfl
  | j :: rest, none => by
      simp only [argmaxAux]
      exact argmaxAux_shift v t rest (some j)
  | j :: rest, some i => by
      simp only [argmaxAux, sub_lt_sub_iff_right]
      exact argmaxAux_shift v t rest _

/-- Row argmax is invariant under subtracting a constant from the row. -/
theorem torchArgmax_shift (v : ℕ → ℝ) (t : ℝ) (c : ℕ) :
    torchArgmax (fun j => v j - t) c = torchArgmax v c :=
  argmaxAux_shift v t (List.range c) none

/-- The sum of exponentials of a nonempty row is positive. -/
theorem exp_row_sum_pos (linear_output : ℕ → ℕ → ℝ) (c : ℕ) (hc : 0 < c) (i : ℕ) :
    (0 : ℝ) < ∑ k ∈ Finset.range c, Real.exp (linear_output i k) :=
  Finset.sum_pos (fun _ _ => Real.exp_pos _) ⟨0, Finset.mem_range.mpr hc⟩

/-- The per-sample `NLLLoss` value of `log_softmax` is the negative log of
the softmax probability of the chosen class. -/
theorem neg_log_softmax_eq (linear_output : ℕ → ℕ → ℝ) (c : ℕ) (hc : 0 < c)
    (i j : ℕ) :
    -(log_softmax linear_output c i j) = -Real.log (softmax linear_output c i j) := by
  rw [softmax, Real.log_div (Real.exp_ne_zero _)
    (ne_of_gt (exp_row_sum_pos linear_output c hc i)), Real.log_exp, log_softmax]

/-- C7: with a weight vector of nonzero sum, `cross_entropy_logits` returns
the confidence-weighted cross entropy `Σ wᵢ lᵢ / Σ wᵢ`, where `lᵢ` is the
negative log of the softmax probability of sample `i`'s true class; the
`correct` component holds exactly when the row argmax of the raw logits is
the label; and with `weights = None` the loss is the unweighted mean of the
`lᵢ`. -/
theorem cross_entropy_logits_spec (b c : ℕ) (linear_output : ℕ → ℕ → ℝ)
    (label : ℕ → ℕ) (w : ℕ → ℝ) (hc : 0 < c)
    (hw : ∑ i ∈ Finset.range b, w i ≠ 0) :
    (cross_entropy_logits b c linear_output label (some w)).1 =
      (∑ i ∈ Finset.range b, w i * -Real.log (softmax linear_output c i (label i)))
        / ∑ i ∈ Finset.range b, w i ∧
    (∀ i, (cross_entropy_logits b c linear_output label (some w)).2 i ↔
      torchArgmax (linear_output i) c = some (label i)) ∧
    (cross_entropy_logits b c linear_output label none).1 =
      (∑ i ∈ Finset.range b, -Real.log (softmax linear_output c i (label i))) / b := by
  refine ⟨?_, ?_, ?_⟩
  · simp only [cross_entropy_logits]
    congr 1
    refine Finset.sum_congr rfl fun i _ => ?_
    rw [neg_log_softmax_eq linear_output c hc]
  · intro i
    exact iff_of_eq (congrArg (fun o => o = some (label i))
      (torchArgmax_shift (linear_output i)
        (Real.log (∑ k ∈ Finset.range c, Real.exp (linear_output i k))) c))
  · simp only [cross_entropy_logits]
    congr 1
    refine Finset.sum_congr rfl fun i _ => ?_
    rw [neg_log_softmax_eq linear_output c hc]

/-- Witness for C7 on a 1×1 batch of zero logits, label 0 and weight 1. -/
theorem cross_entropy_logits_spec_witness :
    0 < 1 ∧ (∑ i ∈ Finset.range 1, oneWeights i) ≠ 0 ∧
    ((cross_entropy_logits 1 1 zeroLogits zeroLabel (some oneWeights)).1 =
      (∑ i ∈ Finset.range 1,
          oneWeights i * -Real.log (softmax zeroLogits 1 i (zeroLabel i)))
        / ∑ i ∈ Finset.range 1, oneWeights i ∧
    (∀ i, (cross_entropy_logits 1 1 zeroLogits zeroLabel (some oneWeights)).2 i ↔
      torchArgmax (zeroLogits i) 1 = some (zeroLabel i)) ∧
    (cross_entropy_logits 1 1 zeroLogits zeroLabel none).1 =
      (∑ i ∈ Finset.range 1, -Real.log (softmax zeroLogits 1 i (zeroLabel i)))
        / ((1 : ℕ) : ℝ)) :=
  ⟨Nat.one_pos, by simp [oneWeights],
    cross_entropy_logits_spec 1 1 zeroLogits zeroLabel oneWeights Nat.one_pos
      (by simp [oneWeights])⟩


/-! ### C5 -/

/-- Square roots used when evaluating the concrete critic. -/
theorem sqrt_four_eq : Real.sqrt 4 = 2 := by
  rw [show (4 : ℝ) = 2 ^ 2 by norm_num, Real.sqrt_sq (by norm_num : (0 : ℝ) ≤ 2)]

/-- Square root of sixteen. -/
theorem sqrt_sixteen_eq : Real.sqrt 16 = 4 := by
  rw [show (16 : ℝ) = 4 ^ 2 by norm_num, Real.sqrt_sq (by norm_num : (0 : ℝ) ≤ 4)]

/-- Splitting a sum over `range (3n)` into three consecutive blocks. -/
theorem sum_range_three_blocks (n : ℕ) (F : ℕ → ℝ) :
    ∑ k ∈ Finset.range (3 * n), F k
      = (∑ k ∈ Finset.range n, F k) + (∑ k ∈ Finset.range n, F (n + k))
        + (∑ k ∈ Finset.range n, F (2 * n + k)) := by
  rw [Finset.range_eq_Ico,
    ← Finset.sum_Ico_consecutive F (by omega : (0 : ℕ) ≤ 2 * n) (by omega : 2 * n ≤ 3 * n),
    ← Finset.sum_Ico_consecutive F (by omega : (0 : ℕ) ≤ n) (by omega : n ≤ 2 * n),
    Finset.sum_Ico_eq_sum_range, Finset.sum_Ico_eq_sum_range, Finset.sum_Ico_eq_sum_range]
  simp only [Nat.sub_zero, Nat.zero_add]
  rw [show 2 * n - n = n by omega, show 3 * n - 2 * n = n by omega]
  simp only [← Finset.range_eq_Ico]

/-- C5 (amended): `gradient_penalty` averages `(‖∇ critic‖₂ - 1)²` over the
concatenation of the interpolated samples, the source batch and the target
batch — `3 n` rows in all — not over the interpolated samples alone. -/
theorem gradient_penalty_mean_over_concat (n d : ℕ) (gradFn : (ℕ → ℝ) → ℕ → ℝ)
    (h_s h_t : ℕ → ℕ → ℝ) (alpha : ℕ → ℝ) :
    gradient_penalty n d gradFn h_s h_t alpha =
      ((∑ k ∈ Finset.range n, gradNormPenalty d gradFn
          (fun j => h_s k j + alpha k * (h_t k j - h_s k j)))
        + ∑ k ∈ Finset.range n, gradNormPenalty d gradFn (h_s k)
        + ∑ k ∈ Finset.range n, gradNormPenalty d gradFn (h_t k)) / (3 * n) := by
  simp only [gradient_penalty, gradNormPenalty]
  rw [sum_range_three_blocks]
  congr 1
  congr 1
  · congr 1
    · refine Finset.sum_congr rfl fun k hk => ?_
      rw [if_pos (Finset.mem_range.mp hk)]
    · refine Finset.sum_congr rfl fun k hk => ?_
      have hk1 : ¬ (n + k < n) := by omega
      have hk2 : n + k < 2 * n := by
        have := Finset.mem_range.mp hk
        omega
      rw [if_neg hk1, if_pos hk2, Nat.add_sub_cancel_left]
  · refine Finset.sum_congr rfl fun k hk => ?_
    have hk1 : ¬ (2 * n + k < n) := by omega
    have hk2 : ¬ (2 * n + k < 2 * n) := by omega
    rw [if_neg hk1, if_neg hk2, Nat.add_sub_cancel_left]

/-- Value of `gradient_penalty` at the concrete critic with draw 1/2. -/
theorem gp_cx_half :
    gradient_penalty 1 1 cxGrad cxHs cxHt cxAlphaHalf = 11 / 3 := by
  simp only [gradient_penalty, cxGrad, cxHs, cxHt, cxAlphaHalf,
    Finset.sum_range_succ, Finset.sum_range_zero]
  norm_num [cxHs, cxHt, sqrt_four_eq, sqrt_sixteen_eq, Real.sqrt_zero]

/-- Value of `gradient_penalty` at the concrete critic with draw 1. -/
theorem gp_cx_one :
    gradient_penalty 1 1 cxGrad cxHs cxHt cxAlphaOne = 19 / 3 := by
  simp only [gradient_penalty, cxGrad, cxHs, cxHt, cxAlphaOne,
    Finset.sum_range_succ, Finset.sum_range_zero]
  norm_num [cxHs, cxHt, sqrt_sixteen_eq, Real.sqrt_zero]

/-- Value of the spec-worded penalty (interpolated samples only) at the
concrete critic with draw 1/2. -/
theorem gpSpec_cx_half :
    gradientPenaltySpec 1 1 cxGrad cxHs cxHt cxAlphaHalf = 1 := by
  simp only [gradientPenaltySpec, cxGrad, cxHs, cxHt, cxAlphaHalf,
    Finset.sum_range_succ, Finset.sum_range_zero]
  norm_num [sqrt_four_eq]

/-- Counterexample to C5 as stated: with the critic `x ↦ x²` on the one-point
batches `h_s = (0)`, `h_t = (2)` and draw `α = 1/2`, the returned penalty is
`11/3` while the mean over the interpolated samples alone is `1`. -/
theorem gradient_penalty_counterexample :
    gradient_penalty 1 1 cxGrad cxHs cxHt cxAlphaHalf ≠
      gradientPenaltySpec 1 1 cxGrad cxHs cxHt cxAlphaHalf := by
  rw [gp_cx_half, gpSpec_cx_half]
  norm_num

/-! ### C1 -/

/-- C1 (amended): with the hidden global generator made explicit,
`gradient_penalty` is a deterministic function of its arguments and the
generator state: the returned value is `gradient_penalty` at the next
`h_s.size(0)` draws of the hidden stream, and the call advances the hidden
position by exactly that batch size.  (Every other loss function of the
module is embedded as a plain function of its arguments: their sources touch
no module-level state.) -/
theorem gradient_penalty_run_characterization (n d : ℕ)
    (gradFn : (ℕ → ℝ) → ℕ → ℝ) (h_s h_t : ℕ → ℕ → ℝ) (g : TorchRNG) :
    gradient_penalty_run n d gradFn h_s h_t g =
      (gradient_penalty n d gradFn h_s h_t (fun i => g.stream (g.pos + i)),
        ⟨g.stream, g.pos + n⟩) :=
  rfl

/-- Counterexample to C1 as stated: two `gradient_penalty` calls with
identical arguments but different hidden generator states return different
values (`11/3` vs `19/3`), and a call changes the hidden state (the position
advances). -/
theorem gradient_penalty_run_not_stateless :
    (gradient_penalty_run 1 1 cxGrad cxHs cxHt cxRngHalf).1 ≠
      (gradient_penalty_run 1 1 cxGrad cxHs cxHt cxRngOne).1 ∧
    (gradient_penalty_run 1 1 cxGrad cxHs cxHt cxRngHalf).2 ≠ cxRngHalf := by
  constructor
  · have e1 : (gradient_penalty_run 1 1 cxGrad cxHs cxHt cxRngHalf).1
        = gradient_penalty 1 1 cxGrad cxHs cxHt cxAlphaHalf := rfl
    have e2 : (gradient_penalty_run 1 1 cxGrad cxHs cxHt cxRngOne).1
        = gradient_penalty 1 1 cxGrad cxHs cxHt cxAlphaOne := rfl
    rw [e1, e2, gp_cx_half, gp_cx_one]
    norm_num
  · intro h
    have hpos := congrArg TorchRNG.pos h
    simp [gradient_penalty_run, torch_rand, cxRngHalf] at hpos

end PyKale
